import Mathlib

/-!
Shallow embedding of `TinyRPC::StreamBuffer` (src/TinyRPC/streambuffer.h).

The buffer is a contiguous byte region with a read offset (`gpos_`), a write
offset (`ppos_`) and a capacity-end offset (`pend_`), plus a flag `const_buf_`
marking a borrowed (read-only) region.  Memory is modelled as a total function
`Nat → Nat` giving the byte stored at each offset; `malloc` returns
zero-initialised memory in the model (no claim inspects uninitialised bytes),
and `realloc` keeps the function and only changes the capacity offset, which is
faithful on every offset the code ever reads.  A fatal `ASSERT` failure is
modelled by returning `none`.
-/

namespace TinyRPC

/-- `SHRINK_WITH_GET` from the source: compaction-on-read toggle, off. -/
def SHRINK_WITH_GET : Bool := false

/-- `GROW_SIZE` from the source: growth increment for `write`. -/
def GROW_SIZE : Nat := 1024

/-- `RESERVED_HEADER_SPACE` from the source: header margin, 64 bytes. -/
def RESERVED_HEADER_SPACE : Nat := 64

/-- The state of a `StreamBuffer`: its five fields `buf_`, `const_buf_`,
`pend_`, `gpos_`, `ppos_`. -/
structure StreamBuffer where
  buf : Nat → Nat
  const_buf : Bool
  pend : Nat
  gpos : Nat
  ppos : Nat

/-- `memcpy(dst + off, src, src.length)`: overwrite the bytes at offsets
`[off, off + src.length)` with the bytes of `src`. -/
def memcpy (dst : Nat → Nat) (off : Nat) (src : List Nat) : Nat → Nat :=
  fun i => if off ≤ i ∧ i < off + src.length then src.getD (i - off) 0 else dst i

/-- The list of `n` bytes stored at offsets `[off, off + n)`. -/
def readBytesFrom (buf : Nat → Nat) (off n : Nat) : List Nat :=
  match n with
  | 0 => []
  | Nat.succ m => buf off :: readBytesFrom buf (off + 1) m

/-- The default constructor `StreamBuffer()`: malloc 128 bytes, reserve the
first 64 as header margin (`gpos_ = ppos_ = 64`, `pend_ = 128`). -/
def StreamBuffer.mkOwned : StreamBuffer :=
  { buf := fun _ => 0
    const_buf := false
    pend := RESERVED_HEADER_SPACE * 2
    gpos := RESERVED_HEADER_SPACE
    ppos := RESERVED_HEADER_SPACE }

/-- The constructor `StreamBuffer(buf, size)`: borrow an external region,
`gpos_ = 0`, `ppos_ = pend_ = size`, `const_buf_ = true`. -/
def StreamBuffer.mkBorrowed (buf : Nat → Nat) (size : Nat) : StreamBuffer :=
  { buf := buf, const_buf := true, pend := size, gpos := 0, ppos := size }

/-- `set_buf(buf, size)`: rebind this instance to a new borrowed region. -/
def StreamBuffer.set_buf (_s : StreamBuffer) (buf : Nat → Nat) (size : Nat) :
    StreamBuffer :=
  { buf := buf, const_buf := true, pend := size, gpos := 0, ppos := size }

/-- `get_size()`: returns `ppos_ - gpos_`. -/
def StreamBuffer.get_size (s : StreamBuffer) : Nat := s.ppos - s.gpos

/-- One `std::swap` on a pair. -/
def swap2 {α : Type} (x y : α) : α × α := (y, x)

/-- `swap(rhs)`, field for field as the source performs it:
`std::swap(const_buf_, rhs.const_buf_); std::swap(buf_, rhs.buf_);
std::swap(pend_, rhs.pend_); std::swap(gpos_, rhs.ppos_);
std::swap(ppos_, rhs.ppos_);` — note the last two lines both target
`rhs.ppos_`.  Returns the pair (this, rhs) after the call. -/
def StreamBuffer.swap (a b : StreamBuffer) : StreamBuffer × StreamBuffer :=
  let p1 := swap2 a.const_buf b.const_buf
  let a1 := { a with const_buf := p1.1 }
  let b1 := { b with const_buf := p1.2 }
  let p2 := swap2 a1.buf b1.buf
  let a2 := { a1 with buf := p2.1 }
  let b2 := { b1 with buf := p2.2 }
  let p3 := swap2 a2.pend b2.pend
  let a3 := { a2 with pend := p3.1 }
  let b3 := { b2 with pend := p3.2 }
  let p4 := swap2 a3.gpos b3.ppos
  let a4 := { a3 with gpos := p4.1 }
  let b4 := { b3 with ppos := p4.2 }
  let p5 := swap2 a4.ppos b4.ppos
  let a5 := { a4 with ppos := p5.1 }
  let b5 := { b4 with ppos := p5.2 }
  (a5, b5)

/-- `write(buf, size)`: fatal on a const buffer; grow to
`max(size + ppos_, ppos_ + GROW_SIZE)` when `size + ppos_ > pend_`
(realloc preserves existing bytes), then copy the bytes to
`[ppos_, ppos_ + size)` and advance `ppos_`. -/
def StreamBuffer.write (s : StreamBuffer) (data : List Nat) :
    Option StreamBuffer :=
  if s.const_buf then none
  else
    let new_size := data.length + s.ppos
    let s1 :=
      if new_size > s.pend then { s with pend := max new_size (s.ppos + GROW_SIZE) }
      else s
    some { s1 with buf := memcpy s1.buf s1.ppos data, ppos := s1.ppos + data.length }

/-- `read(buf, size)`: fatal when `gpos_ + size > ppos_`; otherwise copy the
bytes at `[gpos_, gpos_ + size)` out and advance `gpos_`.  The compaction
branch (memmove to front and shrink) is guarded by `SHRINK_WITH_GET`. -/
def StreamBuffer.read (s : StreamBuffer) (n : Nat) :
    Option (List Nat × StreamBuffer) :=
  if s.gpos + n ≤ s.ppos then
    let out := readBytesFrom s.buf s.gpos n
    let s1 := { s with gpos := s.gpos + n }
    let s2 :=
      if s1.gpos > GROW_SIZE ∧ SHRINK_WITH_GET = true ∧ s1.const_buf = false then
        { s1 with
          buf := fun i =>
            if i < s1.ppos - s1.gpos then s1.buf (s1.gpos + i) else s1.buf i
          pend := s1.pend - s1.gpos
          ppos := s1.ppos - s1.gpos
          gpos := 0 }
      else s1
    some (out, s2)
  else none

/-- The size `std::max(size + ppos_, ppos_ + RESERVED_HEADER_SPACE)` of the
region `write_head` mallocs on its reallocation path. -/
def newSizeCalc (s : StreamBuffer) (n : Nat) : Nat :=
  max (n + s.ppos) (s.ppos + RESERVED_HEADER_SPACE)

/-- The offset `new_gpos = new_size - (ppos_ - gpos_)` to which `write_head`'s
reallocation path copies the unread span. -/
def newGposCalc (s : StreamBuffer) (n : Nat) : Nat :=
  newSizeCalc s n - (s.ppos - s.gpos)

/-- `write_head(buf, size)`: fatal on a const buffer; when `gpos_ < size`,
malloc a region of `newSizeCalc` bytes, copy the unread span
`[gpos_, ppos_)` to its tail at `newGposCalc`, free the old region and set
`gpos_ = newGposCalc`, `ppos_ = pend_ = newSizeCalc`; then decrement `gpos_`
by `size` and copy the header bytes to `[gpos_, gpos_ + size)`. -/
def StreamBuffer.write_head (s : StreamBuffer) (data : List Nat) :
    Option StreamBuffer :=
  if s.const_buf then none
  else
    let sz := data.length
    let s1 :=
      if s.gpos < sz then
        { s with
          buf := memcpy (fun _ => 0) (newGposCalc s sz)
                   (readBytesFrom s.buf s.gpos (s.ppos - s.gpos))
          pend := newSizeCalc s sz
          gpos := newGposCalc s sz
          ppos := newSizeCalc s sz }
      else s
    some { s1 with gpos := s1.gpos - sz, buf := memcpy s1.buf (s1.gpos - sz) data }

/-- The logical content of the buffer: the bytes at `[gpos_, ppos_)`. -/
def StreamBuffer.contents (s : StreamBuffer) : List Nat :=
  readBytesFrom s.buf s.gpos (s.ppos - s.gpos)

/-- Fold a sequence of `write` calls. -/
def writeAll (s : StreamBuffer) (ws : List (List Nat)) : Option StreamBuffer :=
  match ws with
  | [] => some s
  | w :: rest => (s.write w).bind (fun t => writeAll t rest)

/-- Fold a sequence of `read` calls, concatenating the bytes returned. -/
def readAll (s : StreamBuffer) (ns : List Nat) :
    Option (List Nat × StreamBuffer) :=
  match ns with
  | [] => some ([], s)
  | n :: rest =>
    (s.read n).bind fun p =>
      (readAll p.2 rest).map fun q => (p.1 ++ q.1, q.2)

/-! ### Basic facts about `readBytesFrom` and `memcpy` -/

theorem readBytesFrom_length (buf : Nat → Nat) (off n : Nat) :
    (readBytesFrom buf off n).length = n := by
  induction n generalizing off with
  | zero => rfl
  | succ m ih => simp [readBytesFrom, ih]

theorem readBytesFrom_add (buf : Nat → Nat) (off a b : Nat) :
    readBytesFrom buf off (a + b) =
      readBytesFrom buf off a ++ readBytesFrom buf (off + a) b := by
  induction a generalizing off with
  | zero => simp [readBytesFrom]
  | succ m ih =>
    have h : m + 1 + b = (m + b) + 1 := by omega
    rw [h]
    simp only [readBytesFrom, ih (off + 1), List.cons_append]
    have h2 : off + 1 + m = off + (m + 1) := by omega
    rw [h2]

theorem readBytesFrom_congr {f g : Nat → Nat} (off n : Nat)
    (h : ∀ i, off ≤ i → i < off + n → f i = g i) :
    readBytesFrom f off n = readBytesFrom g off n := by
  induction n generalizing off with
  | zero => rfl
  | succ m ih =>
    simp only [readBytesFrom]
    congr 1
    · exact h off (Nat.le_refl _) (by omega)
    · exact ih (off + 1) fun i h1 h2 => h i (by omega) (by omega)

theorem memcpy_inside (dst : Nat → Nat) (off : Nat) (src : List Nat) (i : Nat)
    (h1 : off ≤ i) (h2 : i < off + src.length) :
    memcpy dst off src i = src.getD (i - off) 0 := by
  simp [memcpy, h1, h2]

theorem memcpy_outside (dst : Nat → Nat) (off : Nat) (src : List Nat) (i : Nat)
    (h : i < off ∨ off + src.length ≤ i) :
    memcpy dst off src i = dst i := by
  rcases h with h | h <;> simp [memcpy] <;> omega

theorem readBytesFrom_memcpy_of_le (dst : Nat → Nat) (o : Nat) (src : List Nat)
    (off n : Nat) (h : off + n ≤ o) :
    readBytesFrom (memcpy dst o src) off n = readBytesFrom dst off n :=
  readBytesFrom_congr off n fun i h1 h2 =>
    memcpy_outside dst o src i (Or.inl (by omega))

theorem readBytesFrom_memcpy_of_ge (dst : Nat → Nat) (o : Nat) (src : List Nat)
    (off n : Nat) (h : o + src.length ≤ off) :
    readBytesFrom (memcpy dst o src) off n = readBytesFrom dst off n :=
  readBytesFrom_congr off n fun i h1 h2 =>
    memcpy_outside dst o src i (Or.inr (by omega))

theorem readBytesFrom_memcpy_self (dst : Nat → Nat) (off : Nat)
    (src : List Nat) :
    readBytesFrom (memcpy dst off src) off src.length = src := by
  induction src generalizing dst off with
  | nil => rfl
  | cons c rest ih =>
    simp only [List.length_cons, readBytesFrom]
    congr 1
    · rw [memcpy_inside dst off (c :: rest) off (Nat.le_refl _) (by simp)]
      simp
    · have hstep : readBytesFrom (memcpy dst off (c :: rest)) (off + 1) rest.length =
          readBytesFrom (memcpy dst (off + 1) rest) (off + 1) rest.length := by
        apply readBytesFrom_congr
        intro i h1 h2
        rw [memcpy_inside dst off (c :: rest) i (by omega) (by simp; omega),
          memcpy_inside dst (off + 1) rest i h1 (by omega)]
        have h3 : i - off = (i - (off + 1)) + 1 := by omega
        rw [h3, List.getD_cons_succ]
      rw [hstep, ih]

/-! ### Behaviour of the operations -/

theorem StreamBuffer.contents_eq_nil (s : StreamBuffer) (he : s.gpos = s.ppos) :
    s.contents = [] := by
  unfold StreamBuffer.contents
  rw [he, Nat.sub_self]
  rfl

/-- Appending `w` at offset `p` extends the logical span `[g, p)` by `w`. -/
theorem contents_after_append (buf : Nat → Nat) (g p : Nat) (w : List Nat)
    (hgp : g ≤ p) :
    readBytesFrom (memcpy buf p w) g (p + w.length - g) =
      readBytesFrom buf g (p - g) ++ w := by
  have h1 : p + w.length - g = (p - g) + w.length := by omega
  rw [h1, readBytesFrom_add]
  congr 1
  · exact readBytesFrom_memcpy_of_le buf p w g (p - g) (by omega)
  · have h2 : g + (p - g) = p := by omega
    rw [h2, readBytesFrom_memcpy_self]

/-- Successful `write`: the shape of the state it produces. -/
theorem StreamBuffer.write_contents (s : StreamBuffer) (w : List Nat)
    (hc : s.const_buf = false) (hgp : s.gpos ≤ s.ppos) :
    ∃ t, s.write w = some t ∧ t.const_buf = false ∧ t.gpos = s.gpos ∧
      t.ppos = s.ppos + w.length ∧ t.buf = memcpy s.buf s.ppos w ∧
      t.contents = s.contents ++ w := by
  have hcont : readBytesFrom (memcpy s.buf s.ppos w) s.gpos
      (s.ppos + w.length - s.gpos) = s.contents ++ w :=
    contents_after_append s.buf s.gpos s.ppos w hgp
  unfold StreamBuffer.write
  rw [hc]
  simp only [Bool.false_eq_true, if_false]
  split
  · exact ⟨_, rfl, rfl, rfl, rfl, rfl, hcont⟩
  · exact ⟨_, rfl, hc, rfl, rfl, rfl, hcont⟩

/-- Successful `read` with the shrink branch closed (`SHRINK_WITH_GET = false`). -/
theorem StreamBuffer.read_eq (s : StreamBuffer) (n : Nat)
    (h : s.gpos + n ≤ s.ppos) :
    s.read n = some (readBytesFrom s.buf s.gpos n, { s with gpos := s.gpos + n }) := by
  unfold StreamBuffer.read
  rw [if_pos h]
  simp [SHRINK_WITH_GET]

/-- A sequence of `write` calls on a non-const buffer appends the
concatenation of the payloads to the logical content. -/
theorem writeAll_contents (ws : List (List Nat)) :
    ∀ s : StreamBuffer, s.const_buf = false → s.gpos ≤ s.ppos →
    ∃ t, writeAll s ws = some t ∧ t.const_buf = false ∧ t.gpos ≤ t.ppos ∧
      t.contents = s.contents ++ ws.flatten := by
  induction ws with
  | nil =>
    intro s hc hgp
    exact ⟨s, rfl, hc, hgp, by simp⟩
  | cons w rest ih =>
    intro s hc hgp
    obtain ⟨t, ht, htc, htg, htp, _, htcont⟩ := s.write_contents w hc hgp
    obtain ⟨u, hu, huc, hug, hucont⟩ := ih t htc (by omega)
    refine ⟨u, ?_, huc, hug, ?_⟩
    · simp [writeAll, ht, hu]
    · rw [hucont, htcont, List.flatten_cons, List.append_assoc]

/-- A sequence of `read` calls whose sizes sum to at most the unread length
returns the bytes at `[gpos_, gpos_ + sum)` and advances `gpos_` by the sum. -/
theorem readAll_spec (ns : List Nat) :
    ∀ s : StreamBuffer, s.gpos + ns.sum ≤ s.ppos →
    ∃ t, readAll s ns = some (readBytesFrom s.buf s.gpos ns.sum, t) ∧
      t.buf = s.buf ∧ t.gpos = s.gpos + ns.sum ∧ t.ppos = s.ppos := by
  induction ns with
  | nil =>
    intro s h
    exact ⟨s, rfl, rfl, by simp, rfl⟩
  | cons n rest ih =>
    intro s h
    rw [List.sum_cons] at h
    have h1 : s.gpos + n ≤ s.ppos := by omega
    obtain ⟨u, hu, hub, hug, hup⟩ :=
      ih { s with gpos := s.gpos + n } (by simp; omega)
    simp only at hub hug hup
    refine ⟨u, ?_, hub, by rw [List.sum_cons]; omega, hup⟩
    simp only [readAll]
    rw [s.read_eq n h1, Option.some_bind]
    simp only [hu, Option.map_some', List.sum_cons, readBytesFrom_add]

/-- Writing `w` at offset `g - |w|` prepends `w` to the logical span `[g, p)`. -/
theorem contents_after_prepend (buf : Nat → Nat) (g p : Nat) (w : List Nat)
    (hw : w.length ≤ g) (hgp : g ≤ p) :
    readBytesFrom (memcpy buf (g - w.length) w) (g - w.length)
        (p - (g - w.length)) =
      w ++ readBytesFrom buf g (p - g) := by
  have h1 : p - (g - w.length) = w.length + (p - g) := by omega
  rw [h1, readBytesFrom_add]
  congr 1
  · exact readBytesFrom_memcpy_self buf (g - w.length) w
  · have h2 : g - w.length + w.length = g := by omega
    rw [h2]
    exact readBytesFrom_memcpy_of_ge buf (g - w.length) w g (p - g) (le_of_eq h2)

/-- Successful `write_head`: it prepends the header to the logical content,
through either branch. -/
theorem StreamBuffer.write_head_contents (s : StreamBuffer) (w : List Nat)
    (hc : s.const_buf = false) (hgp : s.gpos ≤ s.ppos) :
    ∃ t, s.write_head w = some t ∧ t.const_buf = false ∧ t.gpos ≤ t.ppos ∧
      t.ppos - t.gpos = w.length + (s.ppos - s.gpos) ∧
      t.contents = w ++ s.contents := by
  unfold StreamBuffer.write_head
  rw [hc]
  simp only [Bool.false_eq_true, if_false]
  by_cases hcase : s.gpos < w.length
  · rw [if_pos hcase]
    have hNp : w.length + s.ppos ≤ newSizeCalc s w.length := le_max_left _ _
    have hGval : newGposCalc s w.length =
        newSizeCalc s w.length - (s.ppos - s.gpos) := rfl
    refine ⟨_, rfl, ?_, ?_, ?_, ?_⟩
    · simp [hc]
    · simp only
      omega
    · simp only
      omega
    · unfold StreamBuffer.contents
      simp only
      set src := readBytesFrom s.buf s.gpos (s.ppos - s.gpos) with hsrc
      have hsl : src.length = s.ppos - s.gpos := readBytesFrom_length _ _ _
      have hw2 : w.length ≤ newGposCalc s w.length := by omega
      have hgp2 : newGposCalc s w.length ≤ newSizeCalc s w.length := by omega
      rw [contents_after_prepend _ _ _ w hw2 hgp2]
      congr 1
      have hNG : newSizeCalc s w.length - newGposCalc s w.length =
          s.ppos - s.gpos := by omega
      rw [hNG, ← hsl]
      exact readBytesFrom_memcpy_self _ _ src
  · rw [if_neg hcase]
    push_neg at hcase
    refine ⟨_, rfl, ?_, ?_, ?_, ?_⟩
    · simp [hc]
    · simp only
      omega
    · simp only
      omega
    · unfold StreamBuffer.contents
      simp only
      exact contents_after_prepend s.buf s.gpos s.ppos w hcase hgp

/-! ### The claims -/

/-- A concrete borrowed buffer over the five bytes 0,1,2,3,4, used to
instantiate theorems with hypotheses at concrete inputs. -/
def sampleB5 : StreamBuffer := StreamBuffer.mkBorrowed (fun i => i) 5

/-- Claim C1 (refuted, code bug): `swap` does not exchange all internal state.
With `a` fresh owned (`gpos_ = ppos_ = 64`) and `b` borrowed over 10 bytes
(`gpos_ = 0`, `ppos_ = 10`), after `a.swap(b)` the first buffer's `ppos_` is
not `b`'s previous `ppos_` (it is `a`'s own previous `gpos_`), and the second
buffer's `gpos_` is not `a`'s previous `gpos_` (it is untouched), because the
source swaps `gpos_` with `rhs.ppos_` and then `ppos_` with `rhs.ppos_`. -/
theorem swap_not_full_exchange :
    (StreamBuffer.mkOwned.swap (StreamBuffer.mkBorrowed (fun _ => 0) 10)).1.ppos ≠
        (StreamBuffer.mkBorrowed (fun _ => 0) 10).ppos ∧
      (StreamBuffer.mkOwned.swap (StreamBuffer.mkBorrowed (fun _ => 0) 10)).2.gpos ≠
        StreamBuffer.mkOwned.gpos := by
  decide

/-- Claim C2 (refuted, code bug): the invariant `gpos_ ≤ ppos_ ≤ pend_` is not
preserved by every public operation.  From two freshly constructed owned
buffers, writing one byte into the second and then swapping leaves the first
buffer with `ppos_ < gpos_`, through the defective `swap`. -/
theorem swap_breaks_invariant :
    ∃ b, StreamBuffer.mkOwned.write [7] = some b ∧
      (StreamBuffer.mkOwned.swap b).1.ppos < (StreamBuffer.mkOwned.swap b).1.gpos := by
  refine ⟨_, rfl, ?_⟩
  decide

/-- Claim C3, counterexample to the unrestricted statement: on an owned
ByteStream that already holds an unread byte (9), writing [[5]] (total length
1) and then reading 1 byte returns [9], not the written [5]. -/
theorem round_trip_fails_on_nonempty_buffer :
    (((StreamBuffer.mkOwned.write [9]).bind fun s0 => writeAll s0 [[5]]).bind
        fun t => (readAll t [1]).map Prod.fst) = some [9] ∧
      ([9] : List Nat) ≠ [[5]].flatten :=
  ⟨rfl, by decide⟩

/-- Claim C3 (amended: the owned buffer starts logically empty,
`gpos_ = ppos_`): for any writes of total length L followed by reads of total
length L, the bytes read are exactly the bytes written, in order. -/
theorem round_trip_from_empty (s : StreamBuffer) (ws : List (List Nat))
    (ns : List Nat) (hc : s.const_buf = false) (he : s.gpos = s.ppos)
    (hL : ns.sum = (ws.map List.length).sum) :
    ∃ t u, writeAll s ws = some t ∧ readAll t ns = some (ws.flatten, u) := by
  obtain ⟨t, ht, htc, htg, htcont⟩ := writeAll_contents ws s hc (le_of_eq he)
  rw [s.contents_eq_nil he, List.nil_append] at htcont
  have hflat : ws.flatten.length = t.ppos - t.gpos := by
    rw [← htcont]
    exact readBytesFrom_length t.buf t.gpos (t.ppos - t.gpos)
  have hns : t.gpos + ns.sum ≤ t.ppos := by
    rw [hL, ← List.length_flatten, hflat]
    omega
  obtain ⟨u, hu, _, _, _⟩ := readAll_spec ns t hns
  refine ⟨t, u, ht, ?_⟩
  rw [hu]
  have hval : readBytesFrom t.buf t.gpos ns.sum = ws.flatten := by
    rw [hL, ← List.length_flatten, hflat, ← htcont]
    rfl
  rw [hval]

/-- Witness for C3 at concrete inputs: write [1,2] then [3], read 2 then 1. -/
theorem round_trip_from_empty_witness :
    ∃ t u, writeAll StreamBuffer.mkOwned [[1, 2], [3]] = some t ∧
      readAll t [2, 1] = some ([[1, 2], [3]].flatten, u) :=
  round_trip_from_empty StreamBuffer.mkOwned [[1, 2], [3]] [2, 1] rfl rfl (by decide)

/-- Claim C4, counterexample to the unrestricted statement: on an owned
ByteStream that already holds an unread byte (9), writing body [5] and then
prepending header [3] yields logical content [3, 9, 5], not [3] ++ [5]. -/
theorem prepend_fails_on_nonempty_buffer :
    ((((StreamBuffer.mkOwned.write [9]).bind fun s => s.write [5]).bind
        fun t => t.write_head [3]).map StreamBuffer.contents) = some [3, 9, 5] ∧
      ([3, 9, 5] : List Nat) ≠ [3] ++ [5] :=
  ⟨rfl, by decide⟩

/-- Claim C4 (amended: the owned buffer starts logically empty,
`gpos_ = ppos_`): writing body B and then calling `write_head` with header H
leaves logical content exactly H ++ B, whether or not the reallocation branch
of `write_head` is taken. -/
theorem prepend_from_empty (s : StreamBuffer) (body head : List Nat)
    (hc : s.const_buf = false) (he : s.gpos = s.ppos) :
    ∃ t u, s.write body = some t ∧ t.write_head head = some u ∧
      u.contents = head ++ body := by
  obtain ⟨t, ht, htc, htg, htp, _, htcont⟩ := s.write_contents body hc (le_of_eq he)
  obtain ⟨u, hu, _, _, _, hucont⟩ := t.write_head_contents head htc (by omega)
  refine ⟨t, u, ht, hu, ?_⟩
  rw [hucont, htcont, s.contents_eq_nil he, List.nil_append]

/-- Witness for C4 at concrete inputs exercising the reallocation branch: body
of 1 byte, header of 100 bytes (more than the 64-byte margin). -/
theorem prepend_from_empty_witness :
    ∃ t u, StreamBuffer.mkOwned.write [1] = some t ∧
      t.write_head (List.replicate 100 2) = some u ∧
      u.contents = List.replicate 100 2 ++ [1] :=
  prepend_from_empty StreamBuffer.mkOwned [1] (List.replicate 100 2) rfl rfl

/-- Claim C5: `write` and `write_head` on a borrowed (const) buffer end in the
fatal assertion, modelled as `none`; no state is produced, so the borrowed
bytes are untouched. -/
theorem borrowed_write_fatal (s : StreamBuffer) (data : List Nat)
    (h : s.const_buf = true) :
    s.write data = none ∧ s.write_head data = none := by
  constructor
  · simp [StreamBuffer.write, h]
  · simp [StreamBuffer.write_head, h]

/-- Witness for C5 at a concrete borrowed buffer. -/
theorem borrowed_write_fatal_witness :
    (StreamBuffer.mkBorrowed (fun i => i) 10).write [1, 2] = none ∧
      (StreamBuffer.mkBorrowed (fun i => i) 10).write_head [1, 2] = none :=
  borrowed_write_fatal (StreamBuffer.mkBorrowed (fun i => i) 10) [1, 2] rfl

/-- Claim C6: `read(n)` fails exactly when `gpos_ + n > ppos_`; when
`gpos_ + n ≤ ppos_` it returns the next `n` unread bytes and advances `gpos_`
by `n`. -/
theorem read_precondition_spec (s : StreamBuffer) (n : Nat) :
    (s.read n = none ↔ s.ppos < s.gpos + n) ∧
      (s.gpos + n ≤ s.ppos →
        s.read n =
          some (readBytesFrom s.buf s.gpos n, { s with gpos := s.gpos + n })) := by
  constructor
  · constructor
    · intro h
      by_contra hcon
      push_neg at hcon
      rw [s.read_eq n hcon] at h
      cases h
    · intro h
      unfold StreamBuffer.read
      rw [if_neg (by omega)]
  · exact s.read_eq n

/-- Witness for C6: reading 3 of the 5 borrowed bytes succeeds as specified. -/
theorem read_precondition_spec_witness :
    sampleB5.read 3 =
      some (readBytesFrom sampleB5.buf sampleB5.gpos 3,
        { sampleB5 with gpos := sampleB5.gpos + 3 }) :=
  (read_precondition_spec sampleB5 3).2 (by decide)

/-- Claim C7: when `write` overflows (`ppos_ + n > pend_`) on a non-const
buffer, the capacity becomes `max(ppos_ + n, ppos_ + GROW_SIZE)` and every
byte below `ppos_` keeps its value. -/
theorem write_growth_spec (s : StreamBuffer) (data : List Nat)
    (hc : s.const_buf = false) (hov : s.pend < s.ppos + data.length) :
    ∃ t, s.write data = some t ∧
      t.pend = max (s.ppos + data.length) (s.ppos + GROW_SIZE) ∧
      ∀ i, i < s.ppos → t.buf i = s.buf i := by
  unfold StreamBuffer.write
  rw [hc]
  simp only [Bool.false_eq_true, if_false]
  rw [if_pos (by omega : data.length + s.ppos > s.pend)]
  refine ⟨_, rfl, ?_, ?_⟩
  · simp only
    omega
  · intro i hi
    exact memcpy_outside s.buf s.ppos data i (Or.inl hi)

/-- Witness for C7: 65 bytes into a fresh owned buffer exceed its 128-byte
capacity from `ppos_ = 64`, so it grows to `max(129, 64 + 1024)`. -/
theorem write_growth_spec_witness :
    ∃ t, StreamBuffer.mkOwned.write (List.replicate 65 7) = some t ∧
      t.pend = max (StreamBuffer.mkOwned.ppos + (List.replicate 65 7).length)
          (StreamBuffer.mkOwned.ppos + GROW_SIZE) ∧
      ∀ i, i < StreamBuffer.mkOwned.ppos → t.buf i = StreamBuffer.mkOwned.buf i :=
  write_growth_spec StreamBuffer.mkOwned (List.replicate 65 7) rfl (by decide)

/-- Claim C8: `get_size()` returns `ppos_ - gpos_` (it is a pure function of
the state), and after a successful read of exactly `get_size()` bytes the new
state's `get_size()` is 0. -/
theorem get_size_spec (s : StreamBuffer) :
    s.get_size = s.ppos - s.gpos ∧
      ∀ out t, s.read s.get_size = some (out, t) → t.get_size = 0 := by
  refine ⟨rfl, ?_⟩
  intro out t h
  by_cases hle : s.gpos + s.get_size ≤ s.ppos
  · rw [s.read_eq _ hle] at h
    injection h with h1
    injection h1 with hout hst
    subst hst
    unfold StreamBuffer.get_size at hle ⊢
    simp only
    omega
  · unfold StreamBuffer.read at h
    rw [if_neg hle] at h
    cases h

/-- Witness for C8: draining the 5-byte borrowed buffer leaves size 0. -/
theorem get_size_spec_witness :
    ∃ out t, sampleB5.read sampleB5.get_size = some (out, t) ∧ t.get_size = 0 :=
  ⟨_, _, rfl, (get_size_spec sampleB5).2 _ _ rfl⟩

/-- Claim C9: under `gpos_ ≤ ppos_`, the offset `new_gpos` computed by
`write_head`'s reallocation branch is at least the header size `n` (so the
unsigned `gpos_ -= n` cannot underflow) and at most the new allocation size
(so the header copy stays inside the new region). -/
theorem write_head_realloc_no_underflow (s : StreamBuffer) (n : Nat)
    (hgp : s.gpos ≤ s.ppos) (hbr : s.gpos < n) :
    n ≤ newGposCalc s n ∧ newGposCalc s n ≤ newSizeCalc s n := by
  have h1 : n + s.ppos ≤ newSizeCalc s n := le_max_left _ _
  unfold newGposCalc
  omega

/-- Witness for C9: a fresh owned buffer with a 100-byte header triggers the
reallocation branch and yields a safe `new_gpos`. -/
theorem write_head_realloc_no_underflow_witness :
    100 ≤ newGposCalc StreamBuffer.mkOwned 100 ∧
      newGposCalc StreamBuffer.mkOwned 100 ≤ newSizeCalc StreamBuffer.mkOwned 100 :=
  write_head_realloc_no_underflow StreamBuffer.mkOwned 100 (by decide) (by decide)

/-- Claim C10: with `SHRINK_WITH_GET = false`, a successful `read(n)` changes
only `gpos_` (by `+ n`): storage, const flag, `pend_` and `ppos_` are exactly
as before, hence every stored byte is unchanged. -/
theorem read_frame_condition (s : StreamBuffer) (n : Nat) (out : List Nat)
    (t : StreamBuffer) (h : s.read n = some (out, t)) :
    SHRINK_WITH_GET = false ∧ t.buf = s.buf ∧ t.const_buf = s.const_buf ∧
      t.pend = s.pend ∧ t.ppos = s.ppos ∧ t.gpos = s.gpos + n := by
  refine ⟨rfl, ?_⟩
  by_cases hle : s.gpos + n ≤ s.ppos
  · rw [s.read_eq n hle] at h
    injection h with h1
    injection h1 with hout hst
    subst hst
    exact ⟨rfl, rfl, rfl, rfl, rfl⟩
  · unfold StreamBuffer.read at h
    rw [if_neg hle] at h
    cases h

/-- Witness for C10: reading 2 of the 5 borrowed bytes only advances `gpos_`. -/
theorem read_frame_condition_witness :
    SHRINK_WITH_GET = false ∧
      ({ sampleB5 with gpos := sampleB5.gpos + 2 }).buf = sampleB5.buf ∧
      ({ sampleB5 with gpos := sampleB5.gpos + 2 }).const_buf = sampleB5.const_buf ∧
      ({ sampleB5 with gpos := sampleB5.gpos + 2 }).pend = sampleB5.pend ∧
      ({ sampleB5 with gpos := sampleB5.gpos + 2 }).ppos = sampleB5.ppos ∧
      ({ sampleB5 with gpos := sampleB5.gpos + 2 }).gpos = sampleB5.gpos + 2 :=
  read_frame_condition sampleB5 2 (readBytesFrom sampleB5.buf sampleB5.gpos 2)
    { sampleB5 with gpos := sampleB5.gpos + 2 } rfl

end TinyRPC
